import Mathlib

/-!
Verification of the orchestration and resource-control core of the Axon AI
tutor server, as a shallow embedding in Lean 4.

The embedded code comes from:
  * `src/core/rate_limiter.py`   — `RateLimiter.wait_if_needed`
  * `src/core/memory.py`         — `get_or_create_conversation`
  * `src/routers/tutor.py`       — `_needs_external_tools`, `ask_tutor`,
                                   `_direct_llm_response`
  * `src/processors/document_processor.py` — `find_relevant_context`
  * `src/agents/mcp_agent.py`    — `extract_sources_from_agent_response`,
                                   `cleanup_mcp_sessions`
  * `src/app.py`                 — `shutdown_event`

Conventions of the embedding:
  * wall-clock time is modelled by `ℚ` (the Python code only adds, subtracts
    and compares timestamps, so any linear ordered field is faithful);
  * Python `dict`s (insertion ordered) are association lists;
  * a fallible collaborator call (LLM, search, translation, tool agent,
    vector index) is a function into `Except String α`, the error string
    standing for `str(e)` of the raised exception;
  * `await` points that only delay (rate-limiter sleeps) return the slept
    duration explicitly instead of suspending;
  * Python's `str.lower` is modelled on ASCII letters, which is exact for
    every string the code and the spec exercise.
-/

namespace Axon

/-! ## String helpers (Python `str.lower` and the `in` substring test) -/

/-- ASCII lowering of one character, the effect of Python `str.lower` on the
ASCII range. -/
def lowerChar (c : Char) : Char :=
  if 'A' ≤ c ∧ c ≤ 'Z' then Char.ofNat (c.toNat + 32) else c

/-- `s.lower()` as a character list. -/
def lowerStr (s : String) : List Char := s.data.map lowerChar

/-- Python's `needle in hay` substring test on character lists. -/
def strContains (hay needle : List Char) : Bool :=
  hay.tails.any (fun t => needle.isPrefixOf t)

/-! ## `_needs_external_tools` (src/routers/tutor.py lines 29-37) -/

/-- The `external_indicators` list of `_needs_external_tools`, exactly as it
appears in the source. -/
def external_indicators : List String :=
  ["latest", "recent", "news", "current",
   "search", "find", "lookup", "research",
   "what is the current", "how many", "statistics",
   "recommend", "where can i", "what are the best"]

/-- Embedding of `_needs_external_tools`: true when the lower-cased question
contains any indicator as a substring. -/
def needs_external_tools (question : String) : Bool :=
  external_indicators.any (fun indicator => strContains (lowerStr question) indicator.data)

/-! ## `RateLimiter` (src/core/rate_limiter.py lines 8-38) -/

/-- The state of one `RateLimiter` instance: the configured limit and the
ordered list of recorded call timestamps. -/
structure RateLimiter where
  calls_per_minute : ℕ
  call_times : List ℚ

/-- Embedding of `RateLimiter.wait_if_needed`, entered at wall-clock time
`now`.  Returns `none` when the source would raise `IndexError`
(`self.call_times[0]` on an empty list, reachable only with
`calls_per_minute = 0`); otherwise `some (state', endTime, slept)` where
`endTime` is the time the call returns and `slept` the duration spent in
`asyncio.sleep` (0 when the call did not suspend).  The timestamp appended
by the final `self.call_times.append(time.time())` is the return time. -/
def wait_if_needed (rl : RateLimiter) (now : ℚ) : Option (RateLimiter × ℚ × ℚ) :=
  let kept := rl.call_times.filter (fun t => now - t < 60)
  if rl.calls_per_minute ≤ kept.length then
    match kept with
    | [] => none
    | t0 :: _ =>
      let wait := 60 - (now - t0)
      if 0 < wait then
        some (⟨rl.calls_per_minute, kept ++ [now + wait]⟩, now + wait, wait)
      else
        some (⟨rl.calls_per_minute, kept ++ [now]⟩, now, 0)
  else
    some (⟨rl.calls_per_minute, kept ++ [now]⟩, now, 0)

/-- The number of recorded timestamps lying in the trailing 60-second window
at time `now`. -/
def windowCount (times : List ℚ) (now : ℚ) : ℕ :=
  (times.filter (fun t => now - t < 60)).length

/-- A sequential run of `wait_if_needed` calls.  `delays` gives, for each
call, the time elapsed between the previous call's return and this call's
entry; the trace records, for every call, the limiter state after it, the
time it returned, and the duration it slept. -/
def runFrom (rl : RateLimiter) (clock : ℚ) : List ℚ → Option (List (RateLimiter × ℚ × ℚ))
  | [] => some []
  | d :: ds =>
    match wait_if_needed rl (clock + d) with
    | none => none
    | some (rl2, endT, slept) =>
      match runFrom rl2 endT ds with
      | none => none
      | some trace => some ((rl2, endT, slept) :: trace)

/-- The limiter invariant at time `T`: timestamps are nondecreasing, none is
in the future, and at most `calls_per_minute` of them lie in the trailing
60-second window. -/
def LimiterInv (rl : RateLimiter) (T : ℚ) : Prop :=
  rl.call_times.Chain' (· ≤ ·) ∧ (∀ t ∈ rl.call_times, t ≤ T) ∧
    windowCount rl.call_times T ≤ rl.calls_per_minute

theorem windowCount_mono (l : List ℚ) {T now : ℚ} (h : T ≤ now) :
    windowCount l now ≤ windowCount l T := by
  unfold windowCount
  rw [← List.countP_eq_length_filter, ← List.countP_eq_length_filter]
  refine List.countP_mono_left (fun t _ ht => ?_)
  have h1 : now - t < 60 := by simpa using ht
  simpa using lt_of_le_of_lt (by linarith : T - t ≤ now - t) h1

theorem windowCount_append_self (l : List ℚ) (now : ℚ) :
    windowCount (l ++ [now]) now = windowCount l now + 1 := by
  unfold windowCount
  simp [List.filter_append, show ((now : ℚ) - now < 60) by norm_num]

/-- One `wait_if_needed` call preserves the limiter invariant (and succeeds,
keeps the configured limit, and does not return before it was entered). -/
theorem wait_if_needed_inv {rl : RateLimiter} {T now : ℚ}
    (hinv : LimiterInv rl T) (hT : T ≤ now) (hpos : 0 < rl.calls_per_minute) :
    ∃ rl2 endT slept, wait_if_needed rl now = some (rl2, endT, slept) ∧
      LimiterInv rl2 endT ∧ now ≤ endT ∧
      rl2.calls_per_minute = rl.calls_per_minute := by
  obtain ⟨hchain, hle, hwin⟩ := hinv
  classical
  set kept := rl.call_times.filter (fun t => now - t < 60) with hkept
  have hkept_chain : kept.Chain' (· ≤ ·) := List.Chain'.sublist hchain (List.filter_sublist _)
  have hkept_mem : ∀ t ∈ kept, t ∈ rl.call_times := fun t ht =>
    List.mem_of_mem_filter ht
  have hkept_le : ∀ t ∈ kept, t ≤ now := fun t ht => le_trans (hle t (hkept_mem t ht)) hT
  have hkept_window : ∀ t ∈ kept, now - t < 60 := by
    intro t ht
    have := List.of_mem_filter ht
    simpa using this
  have hkept_len : kept.length ≤ rl.calls_per_minute := by
    have h1 : kept.length = windowCount rl.call_times now := rfl
    have h2 := windowCount_mono rl.call_times hT
    omega
  unfold wait_if_needed
  rw [← hkept]
  by_cases hfull : rl.calls_per_minute ≤ kept.length
  · -- the window is full: the call sleeps until the oldest entry expires
    have hlen : kept.length = rl.calls_per_minute := le_antisymm hkept_len hfull
    have hne : kept ≠ [] := by
      intro h
      rw [h] at hlen
      simp at hlen
      omega
    obtain ⟨t0, rest, hrest⟩ := List.exists_cons_of_ne_nil hne
    have ht0_mem : t0 ∈ kept := by rw [hrest]; exact List.mem_cons_self _ _
    have hwait_pos : 0 < 60 - (now - t0) := by
      have := hkept_window t0 ht0_mem
      linarith
    rw [hrest]
    rw [if_pos (show rl.calls_per_minute ≤ (t0 :: rest).length from hrest ▸ hfull)]
    dsimp only
    rw [if_pos hwait_pos]
    refine ⟨_, _, _, rfl, ?_, by linarith, rfl⟩
    have hendT : now + (60 - (now - t0)) = t0 + 60 := by ring
    constructor
    · -- chain: every kept timestamp precedes the appended return time
      apply List.Chain'.append (hrest ▸ hkept_chain) (List.chain'_singleton _)
      intro x hx y hy
      have hx1 : x ∈ kept := by
        rw [hrest]
        exact List.mem_of_mem_getLast? hx
      have hy1 : now + (60 - (now - t0)) = y := by simpa using hy
      have := hkept_le x hx1
      rw [← hy1]
      linarith
    constructor
    · -- no timestamp is later than the return time
      intro t ht
      rcases List.mem_append.1 ht with h | h
      · have := hkept_le t (hrest ▸ h)
        linarith
      · have : t = now + (60 - (now - t0)) := by simpa using h
        linarith [this.le]
    · -- window bound: the oldest entry has just expired
      show windowCount ((t0 :: rest) ++ [now + (60 - (now - t0))]) (now + (60 - (now - t0))) ≤
        rl.calls_per_minute
      rw [windowCount_append_self]
      have hcount : windowCount (t0 :: rest) (now + (60 - (now - t0))) ≤ rest.length := by
        unfold windowCount
        rw [hendT]
        have ht0_out : ¬(t0 + 60 - t0 < 60) := by norm_num
        simp only [List.filter_cons, ht0_out, decide_eq_true_eq, if_neg, decide_False]
        simpa using List.length_filter_le _ rest
      have hrl : (t0 :: rest).length = rl.calls_per_minute := hrest ▸ hlen
      simp only [List.length_cons] at hrl
      omega
  · -- room in the window: the call proceeds without sleeping
    simp only [hfull, if_neg, not_false_iff]
    refine ⟨_, _, _, rfl, ?_, le_refl _, rfl⟩
    push_neg at hfull
    constructor
    · apply List.Chain'.append hkept_chain (List.chain'_singleton _)
      intro x hx y hy
      have hx1 : x ∈ kept := List.mem_of_mem_getLast? hx
      have hy1 : now = y := by simpa using hy
      rw [← hy1]
      exact hkept_le x hx1
    constructor
    · intro t ht
      rcases List.mem_append.1 ht with h | h
      · exact hkept_le t h
      · simp_all
    · show windowCount (kept ++ [now]) now ≤ rl.calls_per_minute
      rw [windowCount_append_self]
      have : windowCount kept now = kept.length := by
        unfold windowCount
        rw [List.filter_eq_self.2]
        intro t ht
        simpa using hkept_window t ht
      omega

theorem runFrom_inv {rl : RateLimiter} {T : ℚ} (delays : List ℚ)
    (hinv : LimiterInv rl T) (hpos : 0 < rl.calls_per_minute)
    (hd : ∀ d ∈ delays, 0 ≤ d) :
    ∃ trace, runFrom rl T delays = some trace ∧
      ∀ p ∈ trace, windowCount p.1.call_times p.2.1 ≤ rl.calls_per_minute := by
  induction delays generalizing rl T with
  | nil => exact ⟨[], rfl, by simp⟩
  | cons d ds ih =>
    have hd0 : (0 : ℚ) ≤ d := hd d (List.mem_cons_self _ _)
    have hnow : T ≤ T + d := by linarith
    obtain ⟨rl2, endT, slept, hstep, hinv2, hend, hlim⟩ :=
      wait_if_needed_inv hinv hnow hpos
    obtain ⟨trace, hrun, htrace⟩ :=
      ih hinv2 (by rw [hlim]; exact hpos)
        (fun x hx => hd x (List.mem_cons_of_mem _ hx))
    refine ⟨(rl2, endT, slept) :: trace, ?_, ?_⟩
    · show runFrom rl T (d :: ds) = _
      simp only [runFrom, hstep, hrun]
    · intro p hp
      rcases List.mem_cons.1 hp with h | h
      · rw [h]
        have := hinv2.2.2
        rwa [hlim] at this
      · have := htrace p h
        rwa [hlim] at this

theorem runFrom_no_sleep (rl : RateLimiter) (clock : ℚ) (delays : List ℚ)
    (h : rl.call_times.length + delays.length ≤ rl.calls_per_minute) :
    ∃ trace, runFrom rl clock delays = some trace ∧ ∀ p ∈ trace, p.2.2 = 0 := by
  induction delays generalizing rl clock with
  | nil => exact ⟨[], rfl, by simp⟩
  | cons d ds ih =>
    have hkept_len : (rl.call_times.filter (fun t => clock + d - t < 60)).length ≤
        rl.call_times.length := List.length_filter_le _ _
    have hlt : ¬ rl.calls_per_minute ≤
        (rl.call_times.filter (fun t => clock + d - t < 60)).length := by
      simp only [List.length_cons] at h
      omega
    obtain ⟨trace, hrun, htrace⟩ :=
      ih ⟨rl.calls_per_minute, rl.call_times.filter (fun t => clock + d - t < 60) ++ [clock + d]⟩
        (clock + d)
        (by
          simp only [List.length_append, List.length_singleton, List.length_cons,
            List.length_nil] at h ⊢
          omega)
    refine ⟨(⟨rl.calls_per_minute,
        rl.call_times.filter (fun t => clock + d - t < 60) ++ [clock + d]⟩,
        clock + d, 0) :: trace, ?_, ?_⟩
    · show runFrom rl clock (d :: ds) = _
      simp only [runFrom]
      rw [show wait_if_needed rl (clock + d) =
          some (⟨rl.calls_per_minute,
            rl.call_times.filter (fun t => clock + d - t < 60) ++ [clock + d]⟩, clock + d, 0) by
        unfold wait_if_needed
        rw [if_neg hlt]]
      dsimp only
      rw [hrun]
    · intro p hp
      rcases List.mem_cons.1 hp with h1 | h1
      · rw [h1]
      · exact htrace p h1

/-- C2: on a `RateLimiter` with a positive configured limit, every finite
sequence of sequential `wait_if_needed` calls succeeds, and after each call
returns, the number of recorded timestamps inside the trailing 60-second
window never exceeds `calls_per_minute`. -/
theorem rate_limiter_window_invariant (limit : ℕ) (clock : ℚ) (delays : List ℚ)
    (hpos : 0 < limit) (hd : ∀ d ∈ delays, 0 ≤ d) :
    ∃ trace, runFrom ⟨limit, []⟩ clock delays = some trace ∧
      ∀ p ∈ trace, windowCount p.1.call_times p.2.1 ≤ limit := by
  have hinv : LimiterInv ⟨limit, []⟩ clock :=
    ⟨List.chain'_nil, by simp, by simp [windowCount]⟩
  exact runFrom_inv delays hinv hpos hd

theorem rate_limiter_window_invariant_witness :
    ∃ trace, runFrom ⟨1, []⟩ 0 [0, 0, 30] = some trace ∧
      ∀ p ∈ trace, windowCount p.1.call_times p.2.1 ≤ 1 :=
  rate_limiter_window_invariant 1 0 [0, 0, 30] (by norm_num)
    (by intro d hd; fin_cases hd <;> norm_num)

/-- C6: on a fresh `RateLimiter` with positive limit, any `N ≤
calls_per_minute` successive calls return without sleeping; a further call
made while the list holds `calls_per_minute` timestamps all inside the
window sleeps exactly `60 - (now - t0)` seconds, `t0` being the (oldest)
head timestamp, and appends the new call's timestamp before returning; and
the slept duration is never negative. -/
theorem rate_limiter_fresh_calls (limit : ℕ) (clock : ℚ) (delays : List ℚ)
    (hpos : 0 < limit) (hN : delays.length ≤ limit) :
    (∃ trace, runFrom ⟨limit, []⟩ clock delays = some trace ∧
      ∀ p ∈ trace, p.2.2 = 0) ∧
    (∀ (rl : RateLimiter) (now : ℚ), rl.calls_per_minute = limit →
      rl.call_times.length = limit → rl.call_times.Chain' (· ≤ ·) →
      (∀ t ∈ rl.call_times, now - t < 60) →
      ∃ t0 rest, rl.call_times = t0 :: rest ∧ (∀ t ∈ rl.call_times, t0 ≤ t) ∧
        0 < 60 - (now - t0) ∧
        wait_if_needed rl now =
          some (⟨limit, rl.call_times ++ [now + (60 - (now - t0))]⟩,
            now + (60 - (now - t0)), 60 - (now - t0))) ∧
    (∀ (rl : RateLimiter) (now : ℚ) r, wait_if_needed rl now = some r → 0 ≤ r.2.2) := by
  refine ⟨runFrom_no_sleep _ _ _ (by simpa using hN), ?_, ?_⟩
  · intro rl now hlim hlen hchain hwindow
    have hne : rl.call_times ≠ [] := by
      intro h
      rw [h] at hlen
      simp at hlen
      omega
    obtain ⟨t0, rest, hcons⟩ := List.exists_cons_of_ne_nil hne
    have hfilter : rl.call_times.filter (fun t => now - t < 60) = rl.call_times :=
      List.filter_eq_self.2 (fun t ht => by simpa using hwindow t ht)
    have hwait_pos : 0 < 60 - (now - t0) := by
      have := hwindow t0 (by rw [hcons]; exact List.mem_cons_self _ _)
      linarith
    refine ⟨t0, rest, hcons, ?_, hwait_pos, ?_⟩
    · intro t ht
      have hpair := (List.chain'_iff_pairwise.1 hchain)
      rw [hcons] at hpair ht
      rcases List.mem_cons.1 ht with h | h
      · rw [h]
      · exact (List.pairwise_cons.1 hpair).1 t h
    · unfold wait_if_needed
      rw [hfilter, hcons]
      rw [if_pos (by rw [← hcons, hlen, hlim])]
      dsimp only
      rw [if_pos hwait_pos]
      rw [← hcons, hlim]
  · intro rl now r h
    simp only [wait_if_needed] at h
    split at h
    · split at h
      · exact absurd h (by simp)
      · rename_i t0 rest
        split at h
        · rename_i hw
          cases h
          exact le_of_lt hw
        · cases h
          exact le_refl 0
    · cases h
      exact le_refl 0

theorem rate_limiter_fresh_calls_witness :
    ∃ trace, runFrom ⟨2, []⟩ 0 [0, 0] = some trace ∧ ∀ p ∈ trace, p.2.2 = 0 :=
  (rate_limiter_fresh_calls 2 0 [0, 0] (by norm_num) (by simp)).1

/-- C9 counterexample: the question "Any news about Mars?" contains none of
the twelve cue phrases the claim fixes, yet `_needs_external_tools` returns
true, because the source's `external_indicators` list also holds `"news"`. -/
theorem needs_external_tools_counterexample :
    needs_external_tools "Any news about Mars?" = true ∧
    (["latest", "recent", "current", "how many", "recommend", "where can i",
      "what are the best", "statistics", "search", "find", "lookup",
      "research"] : List String).all
      (fun indicator => !(strContains (lowerStr "Any news about Mars?") indicator.data)) =
      true := by
  decide

/-- C9 (amended): `_needs_external_tools` returns true exactly when the
lower-cased question contains one of the fourteen phrases of the source's
`external_indicators` list — the claim's twelve plus `"news"` and the
redundant `"what is the current"`; in particular it is false on
"What is photosynthesis?" and true on "What are the latest statistics on
climate change?". -/
theorem needs_external_tools_characterization :
    (∀ question : String, needs_external_tools question = true ↔
      ∃ indicator ∈ (["latest", "recent", "news", "current",
        "search", "find", "lookup", "research",
        "what is the current", "how many", "statistics",
        "recommend", "where can i", "what are the best"] : List String),
        strContains (lowerStr question) indicator.data = true) ∧
    needs_external_tools "What is photosynthesis?" = false ∧
    needs_external_tools "What are the latest statistics on climate change?" = true := by
  refine ⟨fun question => ?_, by decide, by decide⟩
  simp [needs_external_tools, external_indicators, List.any_eq_true]

theorem needs_external_tools_characterization_witness :
    needs_external_tools "What are the latest statistics on climate change?" = true :=
  needs_external_tools_characterization.2.2

/-! ## Conversation data and `get_or_create_conversation`
(src/core/memory.py lines 19-46) -/

/-- One message of a conversation's `ConversationBufferMemory`
(`add_user_message` / `add_ai_message`). -/
inductive ChatMsg where
  | user (text : String)
  | ai (text : String)
deriving DecidableEq

/-- One retrieved document chunk: its text and the optional `page` entry of
its metadata (`doc.metadata.get('page')`). -/
structure Doc where
  page_content : String
  page : Option ℕ

/-- One value of a conversation's `files` dict: the staged path, the
FAISS vector store (an external collaborator, modelled as its
`similarity_search(question, k)` behaviour), and the optional description. -/
structure FileInfo where
  path : String
  vectorstore : String → ℕ → Except String (List Doc)
  description : Option String

/-- A live MCP agent bound to a conversation, modelled by its
`run(question)` behaviour. -/
structure AgentHandle where
  run : String → Except String String

/-- A live MCP client owning tool sessions: an identifying name and the
outcome of `close_all_sessions()`. -/
structure ClientHandle where
  cid : String
  close_all_sessions : Except String Unit

/-- One value of the global `conversations` dict. -/
structure ConvData where
  memory : List ChatMsg
  agent : Option AgentHandle
  client : Option ClientHandle
  files : List (String × FileInfo)

/-- The empty conversation state created by `get_or_create_conversation`. -/
def freshConv : ConvData := ⟨[], none, none, []⟩

/-- The id minted for `conversation_id = None`: `f"conv_{len(conversations) + 1}"`. -/
def mintId (conversations : List (String × ConvData)) : String :=
  "conv_" ++ Nat.repr (conversations.length + 1)

/-- Embedding of `get_or_create_conversation`: the `conversations` dict is an
insertion-ordered association list; returns the chosen id, that id's data,
and the possibly-extended dict. -/
def get_or_create_conversation (conversations : List (String × ConvData))
    (conversation_id : Option String) : String × ConvData × List (String × ConvData) :=
  let cid := match conversation_id with
    | none => mintId conversations
    | some c => c
  match List.lookup cid conversations with
  | some d => (cid, d, conversations)
  | none => (cid, freshConv, conversations ++ [(cid, freshConv)])

theorem lookup_eq_none_of_not_mem {β : Type _} (a : String) (l : List (String × β))
    (h : a ∉ l.map Prod.fst) : List.lookup a l = none := by
  induction l with
  | nil => rfl
  | cons p t ih =>
    have hne : a ≠ p.1 := by
      intro he
      exact h (by rw [he]; exact List.mem_cons_self _ _)
    have hbeq : (a == p.1) = false := beq_eq_false_iff_ne.2 hne
    calc List.lookup a (p :: t) = List.lookup a t := by
          rw [show p = (p.1, p.2) from rfl, List.lookup_cons, hbeq]
      _ = none := ih (fun hm => h (List.mem_cons_of_mem _ hm))

/-- C5 counterexample: in a store whose single conversation was adopted from
the caller-supplied id "conv_2", `resolve(None)` mints the colliding id
"conv_2", returns that existing conversation (prior turns intact, not fresh
empty state), leaves the store unchanged, and a second `resolve(None)` call
yields the very same id again. -/
theorem get_or_create_collision_counterexample :
    (get_or_create_conversation [("conv_2", ⟨[ChatMsg.user "hi", ChatMsg.ai "hello"], none, none, []⟩)] none).1 =
      "conv_2" ∧
    (get_or_create_conversation [("conv_2", ⟨[ChatMsg.user "hi", ChatMsg.ai "hello"], none, none, []⟩)] none).2.1.memory =
      [ChatMsg.user "hi", ChatMsg.ai "hello"] ∧
    (get_or_create_conversation [("conv_2", ⟨[ChatMsg.user "hi", ChatMsg.ai "hello"], none, none, []⟩)] none).2.2 =
      [("conv_2", ⟨[ChatMsg.user "hi", ChatMsg.ai "hello"], none, none, []⟩)] ∧
    (get_or_create_conversation
      (get_or_create_conversation [("conv_2", ⟨[ChatMsg.user "hi", ChatMsg.ai "hello"], none, none, []⟩)] none).2.2
      none).1 = "conv_2" := by
  refine ⟨rfl, rfl, rfl, rfl⟩

/-- C5 (amended): `resolve(None)` mints the id `conv_{size+1}`; *provided*
that id is not already present — which holds when every existing id was
minted by the store, but can fail for ids adopted from explicit
caller-supplied values — it initializes fresh empty state under it, and a
second `resolve(None)` whose minted id is also fresh yields a distinct id;
`resolve` on an existing id returns that conversation's state, prior turns
intact, without touching the store. -/
theorem get_or_create_conversation_spec (s : List (String × ConvData)) :
    (mintId s ∉ s.map Prod.fst →
      get_or_create_conversation s none =
        (mintId s, freshConv, s ++ [(mintId s, freshConv)]) ∧
      (mintId (s ++ [(mintId s, freshConv)]) ∉
          (s ++ [(mintId s, freshConv)]).map Prod.fst →
        (get_or_create_conversation (s ++ [(mintId s, freshConv)]) none).1 ≠ mintId s)) ∧
    (∀ cid d, List.lookup cid s = some d →
      get_or_create_conversation s (some cid) = (cid, d, s)) := by
  have fresh_case : ∀ s2 : List (String × ConvData), mintId s2 ∉ s2.map Prod.fst →
      get_or_create_conversation s2 none =
        (mintId s2, freshConv, s2 ++ [(mintId s2, freshConv)]) := by
    intro s2 hfresh
    simp only [get_or_create_conversation]
    rw [lookup_eq_none_of_not_mem _ _ hfresh]
  constructor
  · intro hfresh
    refine ⟨fresh_case s hfresh, ?_⟩
    intro hfresh2 heq
    rw [fresh_case _ hfresh2] at heq
    dsimp only at heq
    apply hfresh2
    rw [heq, List.map_append]
    exact List.mem_append_right _ (by simp)
  · intro cid d hl
    simp only [get_or_create_conversation]
    rw [hl]

theorem get_or_create_conversation_spec_witness :
    get_or_create_conversation [] none =
      ("conv_1", freshConv, [("conv_1", freshConv)]) ∧
    (get_or_create_conversation [("conv_1", freshConv)] none).1 ≠ "conv_1" ∧
    get_or_create_conversation [("conv_1", freshConv)] (some "conv_1") =
      ("conv_1", freshConv, [("conv_1", freshConv)]) := by
  have h := get_or_create_conversation_spec []
  have h2 := get_or_create_conversation_spec [("conv_1", freshConv)]
  refine ⟨(h.1 (by decide)).1, ?_, h2.2 "conv_1" freshConv (by rw [List.lookup_cons]; simp)⟩
  have := (h.1 (by decide)).2 (by decide)
  simpa using this

/-! ## `DocumentProcessor.find_relevant_context`
(src/processors/document_processor.py lines 102-141) -/

/-- The source tag built for one retrieved chunk: `"From {file_name}"`, a
page marker when the metadata has a truthy `page` entry, then the chunk
text. -/
def tagDoc (file_name : String) (doc : Doc) : String :=
  let source := "From " ++ file_name
  let source := match doc.page with
    | some p => if p ≠ 0 then source ++ " (page " ++ Nat.repr p ++ ")" else source
    | none => source
  source ++ ":\n" ++ doc.page_content

/-- The `for file_name, file_info in conversation_data["files"].items()` loop
of `find_relevant_context`.  A file is queried when its lower-cased name
occurs in the lower-cased question or no content has been gathered yet; an
exception from `similarity_search` propagates.  Returns the names queried so
far and the gathered `relevant_content`. -/
def frcLoop (question : String) (max_docs : ℕ) :
    List (String × FileInfo) → List String → List String →
    Except String (List String × List String)
  | [], queried, relevant_content => .ok (queried, relevant_content)
  | (file_name, file_info) :: rest, queried, relevant_content =>
    if strContains (lowerStr question) (lowerStr file_name) || relevant_content.isEmpty then
      match file_info.vectorstore question max_docs with
      | .error e => .error e
      | .ok docs =>
        frcLoop question max_docs rest (queried ++ [file_name])
          (relevant_content ++ docs.map (tagDoc file_name))
    else
      frcLoop question max_docs rest queried relevant_content

/-- Embedding of `find_relevant_context`, instrumented with the list of
file names whose index was queried. -/
def find_relevant_context_t (conversation_data : ConvData) (question : String)
    (max_docs : ℕ) : Except String (List String × Option String) :=
  if conversation_data.files.isEmpty then .ok ([], none)
  else
    match frcLoop question max_docs conversation_data.files [] [] with
    | .error e => .error e
    | .ok (queried, relevant_content) =>
      if relevant_content.isEmpty then .ok (queried, none)
      else .ok (queried, some (String.intercalate "\n\n" relevant_content))

/-- `find_relevant_context` as the caller sees it: the optional context
string (or the propagated lookup error). -/
def find_relevant_context (conversation_data : ConvData) (question : String)
    (max_docs : ℕ) : Except String (Option String) :=
  (find_relevant_context_t conversation_data question max_docs).map (fun r => r.2)

/-- `find_relevant_context` as a state transformer on the conversation: the
source method performs no write to `conversation_data`, so the embedding
returns the state unchanged. -/
def find_relevant_context_st (conversation_data : ConvData) (question : String)
    (max_docs : ℕ) : Except String (Option String) × ConvData :=
  (find_relevant_context conversation_data question max_docs, conversation_data)

/-- A document whose index lookup raises. -/
def errIndex : FileInfo := ⟨"/tmp/a.txt", fun _ _ => .error "index boom", none⟩

/-- A document whose index lookup yields one fragment. -/
def okIndex : FileInfo := ⟨"/tmp/b.txt", fun _ _ => .ok [⟨"fragment B", none⟩], none⟩

/-- A conversation with two attached documents, the first of which has a
failing index. -/
def cdTwoDocs : ConvData := ⟨[], none, none, [("a.txt", errIndex), ("b.txt", okIndex)]⟩

/-- C7 counterexample: with two attached documents and a question mentioning
neither, a failure in the first document's index lookup aborts the whole
assembly — the error propagates and the second document's fragment is never
returned, contrary to the claimed isolate-and-skip behaviour. -/
theorem find_relevant_context_error_counterexample :
    find_relevant_context cdTwoDocs "summarize the data" 3 = .error "index boom" ∧
    okIndex.vectorstore "summarize the data" 3 = .ok [⟨"fragment B", none⟩] :=
  ⟨rfl, rfl⟩

/-- C7 (amended): a failure raised by a queried document's index lookup
during context assembly aborts the assembly: `find_relevant_context`
propagates that error to its caller and returns no fragments from any
document (the orchestrator's top-level handler is what eventually catches
it). -/
theorem find_relevant_context_error_propagates (cd : ConvData) (question : String)
    (k : ℕ) (pre : List (String × FileInfo)) (name : String) (info : FileInfo)
    (post : List (String × FileInfo)) (e : String)
    (hfiles : cd.files = pre ++ (name, info) :: post)
    (hpre : ∀ p ∈ pre, p.2.vectorstore question k = Except.ok [])
    (herr : info.vectorstore question k = Except.error e) :
    find_relevant_context cd question k = Except.error e := by
  have hloop : ∀ (pre2 : List (String × FileInfo)) (queried : List String),
      (∀ p ∈ pre2, p.2.vectorstore question k = Except.ok []) →
      frcLoop question k (pre2 ++ (name, info) :: post) queried [] = Except.error e := by
    intro pre2
    induction pre2 with
    | nil =>
      intro queried _
      show frcLoop question k ((name, info) :: post) queried [] = Except.error e
      simp only [frcLoop, List.isEmpty_nil, Bool.or_true, if_pos, herr]
    | cons hd tl ih =>
      intro queried hpre2
      obtain ⟨n1, i1⟩ := hd
      have hhd : i1.vectorstore question k = Except.ok [] := by
        simpa using hpre2 (n1, i1) (List.mem_cons_self _ _)
      show frcLoop question k ((n1, i1) :: (tl ++ (name, info) :: post)) queried [] =
        Except.error e
      simp only [frcLoop, List.isEmpty_nil, Bool.or_true, if_pos, hhd, List.map_nil,
        List.append_nil]
      exact ih (queried ++ [n1]) (fun p hp => hpre2 p (List.mem_cons_of_mem _ hp))
  unfold find_relevant_context find_relevant_context_t
  rw [hfiles]
  rw [if_neg (by simp)]
  rw [hloop pre [] hpre]
  rfl

theorem find_relevant_context_error_propagates_witness :
    find_relevant_context ⟨[], none, none, [("a.txt", errIndex)]⟩ "hello" 3 =
      Except.error "index boom" :=
  find_relevant_context_error_propagates ⟨[], none, none, [("a.txt", errIndex)]⟩
    "hello" 3 [] "a.txt" errIndex [] "index boom" rfl (by simp) rfl

theorem frcLoop_skip (question : String) (k : ℕ) (files : List (String × FileInfo))
    (queried acc : List String)
    (hnm : ∀ p ∈ files, strContains (lowerStr question) (lowerStr p.1) = false)
    (hacc : acc ≠ []) :
    frcLoop question k files queried acc = Except.ok (queried, acc) := by
  induction files with
  | nil => rfl
  | cons hd tl ih =>
    obtain ⟨n1, i1⟩ := hd
    have hn1 : strContains (lowerStr question) (lowerStr n1) = false := by
      simpa using hnm (n1, i1) (List.mem_cons_self _ _)
    show frcLoop question k ((n1, i1) :: tl) queried acc = Except.ok (queried, acc)
    simp only [frcLoop, hn1, Bool.false_or, List.isEmpty_eq_true, hacc, if_neg,
      Bool.false_eq_true, not_false_iff]
    exact ih (fun p hp => hnm p (List.mem_cons_of_mem _ hp))

theorem frcLoop_seek (question : String) (k : ℕ) (files : List (String × FileInfo))
    (queried : List String)
    (hnm : ∀ p ∈ files, strContains (lowerStr question) (lowerStr p.1) = false)
    (hok : ∀ p ∈ files, ∃ docs, p.2.vectorstore question k = Except.ok docs) :
    (∃ pre x post ds, files = pre ++ x :: post ∧
      (∀ p ∈ pre, p.2.vectorstore question k = Except.ok []) ∧
      x.2.vectorstore question k = Except.ok ds ∧ ds ≠ [] ∧
      frcLoop question k files queried [] =
        Except.ok (queried ++ (pre ++ [x]).map Prod.fst, ds.map (tagDoc x.1))) ∨
    ((∀ p ∈ files, p.2.vectorstore question k = Except.ok []) ∧
      frcLoop question k files queried [] =
        Except.ok (queried ++ files.map Prod.fst, [])) := by
  induction files generalizing queried with
  | nil => exact Or.inr ⟨by simp, by simp [frcLoop]⟩
  | cons hd tl ih =>
    obtain ⟨n1, i1⟩ := hd
    obtain ⟨docs, hdocs0⟩ := hok (n1, i1) (List.mem_cons_self _ _)
    have hdocs : i1.vectorstore question k = Except.ok docs := by simpa using hdocs0
    have hn1 : strContains (lowerStr question) (lowerStr n1) = false := by
      simpa using hnm (n1, i1) (List.mem_cons_self _ _)
    have hnm_tl : ∀ p ∈ tl, strContains (lowerStr question) (lowerStr p.1) = false :=
      fun p hp => hnm p (List.mem_cons_of_mem _ hp)
    have hstep : frcLoop question k ((n1, i1) :: tl) queried [] =
        frcLoop question k tl (queried ++ [n1]) (docs.map (tagDoc n1)) := by
      simp only [frcLoop, List.isEmpty_nil, Bool.or_true, if_pos, hdocs, List.nil_append]
    by_cases hdocs_nil : docs = []
    · subst hdocs_nil
      rcases ih (queried ++ [n1]) hnm_tl
          (fun p hp => hok p (List.mem_cons_of_mem _ hp)) with
        ⟨pre, x, post, ds, hsplit, hpre, hx, hds, hrun⟩ | ⟨hall, hrun⟩
      · refine Or.inl ⟨(n1, i1) :: pre, x, post, ds, by rw [hsplit]; rfl, ?_, hx, hds, ?_⟩
        · intro p hp
          rcases List.mem_cons.1 hp with h | h
          · rw [h]; simpa using hdocs
          · exact hpre p h
        · rw [hstep]
          simp only [List.map_nil] at hrun ⊢
          rw [hrun]
          simp
      · refine Or.inr ⟨?_, ?_⟩
        · intro p hp
          rcases List.mem_cons.1 hp with h | h
          · rw [h]; simpa using hdocs
          · exact hall p h
        · rw [hstep]
          simp only [List.map_nil] at hrun ⊢
          rw [hrun]
          simp
    · refine Or.inl ⟨[], (n1, i1), tl, docs, by simp, by simp, hdocs, hdocs_nil, ?_⟩
      rw [hstep]
      rw [frcLoop_skip question k tl (queried ++ [n1]) (docs.map (tagDoc n1)) hnm_tl
        (by simpa [List.map_eq_nil_iff] using hdocs_nil)]
      simp

/-- C10: when a conversation has attached documents and none of their
filenames occurs (case-insensitively) in the question, `find_relevant_context`
queries the document indexes in mapping order until one yields a fragment;
documents after that one are not queried; the result is `None` exactly when
no queried document yields a fragment (in which case every document was
queried); and the conversation state is left unchanged. -/
theorem find_relevant_context_seek_order (cd : ConvData) (question : String)
    (hne : cd.files ≠ [])
    (hnm : ∀ p ∈ cd.files, strContains (lowerStr question) (lowerStr p.1) = false)
    (hok : ∀ p ∈ cd.files, ∃ docs, p.2.vectorstore question 3 = Except.ok docs) :
    ∃ queried result,
      find_relevant_context_t cd question 3 = Except.ok (queried, result) ∧
      ((∃ pre x post ds, cd.files = pre ++ x :: post ∧
          (∀ p ∈ pre, p.2.vectorstore question 3 = Except.ok []) ∧
          x.2.vectorstore question 3 = Except.ok ds ∧ ds ≠ [] ∧
          queried = (pre ++ [x]).map Prod.fst ∧
          result = some (String.intercalate "\n\n" (ds.map (tagDoc x.1)))) ∨
        ((∀ p ∈ cd.files, p.2.vectorstore question 3 = Except.ok []) ∧
          queried = cd.files.map Prod.fst ∧ result = none)) ∧
      (result = none ↔ ∀ p ∈ cd.files, p.2.vectorstore question 3 = Except.ok []) ∧
      (find_relevant_context_st cd question 3).2 = cd := by
  rcases frcLoop_seek question 3 cd.files [] hnm hok with
    ⟨pre, x, post, ds, hsplit, hpre, hx, hds, hrun⟩ | ⟨hall, hrun⟩
  · refine ⟨(pre ++ [x]).map Prod.fst,
      some (String.intercalate "\n\n" (ds.map (tagDoc x.1))), ?_, ?_, ?_, rfl⟩
    · unfold find_relevant_context_t
      rw [if_neg (by simpa [List.isEmpty_eq_true] using hne)]
      rw [show ([] : List String) ++ (pre ++ [x]).map Prod.fst =
        (pre ++ [x]).map Prod.fst from by simp] at hrun
      rw [hrun]
      dsimp only
      rw [if_neg (by simpa [List.isEmpty_eq_true, List.map_eq_nil_iff] using hds)]
    · exact Or.inl ⟨pre, x, post, ds, hsplit, hpre, hx, hds, rfl, rfl⟩
    · constructor
      · intro h
        exact absurd h (by simp)
      · intro hall2
        have := hall2 x (by rw [hsplit]; exact List.mem_append_right _ (List.mem_cons_self _ _))
        rw [hx] at this
        exact absurd (Except.ok.inj this) hds
  · refine ⟨cd.files.map Prod.fst, none, ?_, Or.inr ⟨hall, rfl, rfl⟩, ?_, rfl⟩
    · unfold find_relevant_context_t
      rw [if_neg (by simpa [List.isEmpty_eq_true] using hne)]
      rw [show ([] : List String) ++ cd.files.map Prod.fst =
        cd.files.map Prod.fst from by simp] at hrun
      rw [hrun]
      rfl
    · exact ⟨fun _ => hall, fun _ => rfl⟩

/-- A conversation with a single attached document whose index yields one
fragment. -/
def cdSingleDoc : ConvData :=
  ⟨[], none, none,
    [("notes.txt", ⟨"/tmp/notes.txt", fun _ _ => .ok [⟨"Newton material", none⟩], none⟩)]⟩

theorem find_relevant_context_seek_order_witness :
    ∃ queried result,
      find_relevant_context_t cdSingleDoc "Explain gravity" 3 = Except.ok (queried, result) ∧
      ((∃ pre x post ds, cdSingleDoc.files = pre ++ x :: post ∧
          (∀ p ∈ pre, p.2.vectorstore "Explain gravity" 3 = Except.ok []) ∧
          x.2.vectorstore "Explain gravity" 3 = Except.ok ds ∧ ds ≠ [] ∧
          queried = (pre ++ [x]).map Prod.fst ∧
          result = some (String.intercalate "\n\n" (ds.map (tagDoc x.1)))) ∨
        ((∀ p ∈ cdSingleDoc.files, p.2.vectorstore "Explain gravity" 3 = Except.ok []) ∧
          queried = cdSingleDoc.files.map Prod.fst ∧ result = none)) ∧
      (result = none ↔
        ∀ p ∈ cdSingleDoc.files, p.2.vectorstore "Explain gravity" 3 = Except.ok []) ∧
      (find_relevant_context_st cdSingleDoc "Explain gravity" 3).2 = cdSingleDoc := by
  apply find_relevant_context_seek_order cdSingleDoc "Explain gravity"
  · simp [cdSingleDoc]
  · intro p hp
    simp only [cdSingleDoc, List.mem_singleton] at hp
    subst hp
    decide
  · intro p hp
    simp only [cdSingleDoc, List.mem_singleton] at hp
    subst hp
    exact ⟨_, rfl⟩

/-! ## Shutdown cleanup (src/agents/mcp_agent.py lines 76-85 and
src/app.py lines 39-43) -/

/-- A cleanup action observable at teardown: a client's
`close_all_sessions()` invocation, or a staged file removal attempt. -/
inductive CleanupEvent where
  | closedClient (cid : String)
  | removedFile (path : String)
deriving DecidableEq

/-- Embedding of `DocumentProcessor.cleanup_files`: attempts to remove the
staged path of every attached file, swallowing per-file errors.  It is
invoked by the per-file `/remove` endpoint; `shutdown_event` never calls
it. -/
def cleanup_files (conversation_data : ConvData) : List CleanupEvent :=
  conversation_data.files.map (fun p => CleanupEvent.removedFile p.2.path)

/-- Embedding of `cleanup_mcp_sessions`: iterates the conversations dict in
order and awaits `close_all_sessions()` on each conversation's client when
one is set; an exception from one close propagates, aborting the loop.
Returns the trace of close invocations and the overall outcome. -/
def cleanup_mcp_sessions : List (String × ConvData) → List CleanupEvent × Except String Unit
  | [] => ([], .ok ())
  | (_, conv_data) :: rest =>
    match conv_data.client with
    | none => cleanup_mcp_sessions rest
    | some client =>
      match client.close_all_sessions with
      | .error e => ([CleanupEvent.closedClient client.cid], .error e)
      | .ok _ =>
        let r := cleanup_mcp_sessions rest
        (CleanupEvent.closedClient client.cid :: r.1, r.2)

/-- Embedding of the FastAPI `shutdown_event` handler: its entire body is
`await cleanup_mcp_sessions(conversations)`. -/
def shutdown_event (conversations : List (String × ConvData)) :
    List CleanupEvent × Except String Unit :=
  cleanup_mcp_sessions conversations

/-- The close invocation expected for every conversation holding a live
client, in iteration order. -/
def liveClients (conversations : List (String × ConvData)) : List CleanupEvent :=
  conversations.filterMap (fun p => p.2.client.map (fun c => CleanupEvent.closedClient c.cid))

/-- A store with two conversations: the first has an attached document and a
client whose close raises; the second has a healthy live client. -/
def convs8 : List (String × ConvData) :=
  [("c1", ⟨[], none, some ⟨"cl1", .error "close boom"⟩,
      [("f.pdf", ⟨"/tmp/f.pdf", fun _ _ => .ok [], none⟩)]⟩),
   ("c2", ⟨[], none, some ⟨"cl2", .ok ()⟩, []⟩)]

/-- C8 counterexample: at shutdown with store `convs8`, the only cleanup
performed is the failing close of the first client — the first
conversation's attached document gets no cleanup at all, and the second
conversation's live client "cl2" is never closed because the first close's
exception aborts the loop. -/
theorem shutdown_cleanup_counterexample :
    (shutdown_event convs8).1 = [CleanupEvent.closedClient "cl1"] ∧
    (shutdown_event convs8).2 = .error "close boom" ∧
    convs8.map (fun p => p.2.files.map Prod.fst) = [["f.pdf"], []] ∧
    liveClients convs8 =
      [CleanupEvent.closedClient "cl1", CleanupEvent.closedClient "cl2"] :=
  ⟨rfl, rfl, rfl, rfl⟩

/-- C8 (amended): at process shutdown the conversations are iterated in
order and `close_all_sessions` is invoked on each live client until the
first failure aborts the iteration; document cleanup is never invoked at
shutdown; and when every close succeeds, each conversation's live client is
closed exactly once (the trace is exactly the live clients in order).  The
code has no conversation-removal operation; per-file removal is the only
path that calls `cleanup_files`. -/
theorem shutdown_cleanup_spec (conversations : List (String × ConvData)) :
    (∀ ev ∈ (shutdown_event conversations).1,
      ∀ path, ev ≠ CleanupEvent.removedFile path) ∧
    ((∀ p ∈ conversations, ∀ c, p.2.client = some c →
        c.close_all_sessions = Except.ok ()) →
      (shutdown_event conversations).1 = liveClients conversations ∧
      (shutdown_event conversations).2 = Except.ok ()) := by
  induction conversations with
  | nil => exact ⟨by simp [shutdown_event, cleanup_mcp_sessions], fun _ => ⟨rfl, rfl⟩⟩
  | cons hd rest ih =>
    obtain ⟨n, d⟩ := hd
    unfold shutdown_event at ih ⊢
    constructor
    · intro ev hev path
      match hcl : d.client with
      | none =>
        simp only [cleanup_mcp_sessions, hcl] at hev
        exact ih.1 ev hev path
      | some client =>
        match hcls : client.close_all_sessions with
        | .error e =>
          simp only [cleanup_mcp_sessions, hcl, hcls, List.mem_singleton] at hev
          rw [hev]
          simp
        | .ok u =>
          simp only [cleanup_mcp_sessions, hcl, hcls] at hev
          rcases List.mem_cons.1 hev with h | h
          · rw [h]; simp
          · exact ih.1 ev h path
    · intro hall
      have hrest := ih.2 (fun p hp => hall p (List.mem_cons_of_mem _ hp))
      match hcl : d.client with
      | none =>
        simp only [cleanup_mcp_sessions, hcl]
        rw [show liveClients ((n, d) :: rest) = liveClients rest from by
          simp [liveClients, List.filterMap_cons, hcl]]
        exact hrest
      | some client =>
        have hok : client.close_all_sessions = Except.ok () :=
          hall (n, d) (List.mem_cons_self _ _) client hcl
        simp only [cleanup_mcp_sessions, hcl, hok]
        rw [show liveClients ((n, d) :: rest) =
            CleanupEvent.closedClient client.cid :: liveClients rest from by
          simp [liveClients, List.filterMap_cons, hcl]]
        exact ⟨by rw [hrest.1], hrest.2⟩

/-- A store whose every live client closes successfully. -/
def convs8ok : List (String × ConvData) :=
  [("c1", ⟨[], none, some ⟨"cl1", .ok ()⟩, []⟩), ("c2", ⟨[], none, none, []⟩)]

theorem shutdown_cleanup_spec_witness :
    (shutdown_event convs8ok).1 = liveClients convs8ok ∧
    (shutdown_event convs8ok).2 = Except.ok () :=
  (shutdown_cleanup_spec convs8ok).2 (by
    intro p hp c hc
    rcases List.mem_cons.1 hp with h | h
    · rw [h] at hc
      simp only [Option.some.injEq] at hc
      rw [← hc]
    · simp only [convs8ok, List.mem_singleton] at h
      rw [h] at hc
      simp at hc)

/-! ## The `/ask` orchestrator (src/routers/tutor.py lines 39-236 and
src/agents/mcp_agent.py lines 58-74) -/

/-- The `TutorQuery` request model (src/models/api_models.py lines 8-15). -/
structure TutorQuery where
  question : String
  conversation_id : Option String
  language : String
  use_tavily : Bool
  use_mcp : Bool
  use_langgraph : Bool

/-- The `TutorResponse` model returned on success. -/
structure TutorResponse where
  answer : String
  conversation_id : String
  sources : List String
  language : String
deriving DecidableEq

/-- A FastAPI `HTTPException`: status code and detail string. -/
structure HTTPError where
  status_code : ℕ
  detail : String
deriving DecidableEq

/-- One entry of the LangGraph final state's `search_results` (only its
optional `url` key is read by `ask_tutor`). -/
structure GraphSearchResult where
  url : Option String

/-- The initial state dict handed to `langgraph_agent.ainvoke`. -/
structure GraphState where
  question : String
  context : String
  file_context : String
  search_results : List GraphSearchResult
  need_search : Bool
  final_answer : String

/-- The fields of the LangGraph final state read by `ask_tutor`. -/
structure GraphResult where
  final_answer : String
  search_results : List GraphSearchResult

/-- One Tavily search result; `ask_tutor` reads `url`, `title`, `content`
unconditionally. -/
structure TavilyResult where
  url : String
  title : String
  content : String

/-- The external collaborators `ask_tutor` dispatches to, each modelled by
its observable behaviour, plus the Tavily API key configuration flag.
`direct_llm_response` is the `prompt | llm | StrOutputParser` chain of
`_direct_llm_response`; `tavily_chain` is the analogous chain of the Tavily
branch, taking the question and assembled context. -/
structure Collaborators where
  detect_language : String → Except String String
  translate_text : String → String → String → Except String String
  direct_llm_response : String → Option String → Except String String
  langgraph_invoke : GraphState → Except String GraphResult
  tavily_search : String → Except String (List TavilyResult)
  tavily_chain : String → String → Except String String
  mcp_create_agent : Except String (AgentHandle × ClientHandle)
  tavily_key_configured : Bool

/-- The four answer-generation strategies; `direct` is the plain chain used
both on the no-tools path and as the in-branch fallback. -/
inductive Strategy where
  | langgraph
  | tavily
  | mcp
  | direct
deriving DecidableEq

/-- Embedding of `extract_sources_from_agent_response`
(src/agents/mcp_agent.py lines 58-74). -/
def extract_sources_from_agent_response (response : String) : List String :=
  if strContains response.data "Source:".data then
    ((response.splitOn "Source:").drop 1).map
      (fun part => ((part.trim).splitOn "\n").headD "")
  else []

/-- The f-string wrapping the question with file context in the MCP branch
(src/routers/tutor.py lines 169-174), whitespace included. -/
def mcp_question_with_context (file_context question : String) : String :=
  "\n                    I have the following information from my documents:\n                    "
    ++ file_context
    ++ "\n                    \n                    Based on this and your knowledge, please answer: "
    ++ question ++ "\n                    "

/-- The `search_context` string assembled from Tavily results
(src/routers/tutor.py lines 116-119). -/
def tavily_search_context (results : List TavilyResult) : String :=
  String.intercalate "\n" (results.map (fun r =>
    "Source: " ++ r.url ++ "\nTitle: " ++ r.title ++ "\nContent: " ++ r.content))

/-- The translate-in phase (src/routers/tutor.py lines 52-67): when the
requested language is neither "english" nor "en", detect (for "auto") or
adopt the declared language, and translate the question to English unless
the source language already is English.  Returns the `source_language`
variable and the (possibly overwritten) `request.question`. -/
def translate_in (C : Collaborators) (language question : String) :
    Except String (Option String × String) :=
  if language ≠ "english" ∧ language ≠ "en" then
    match (if language = "auto" then C.detect_language question else Except.ok language) with
    | .error e => .error e
    | .ok source_language =>
      if source_language ≠ "en" ∧ source_language ≠ "english" then
        match C.translate_text question source_language "en" with
        | .error e => .error e
        | .ok translated => .ok (some source_language, translated)
      else .ok (some source_language, question)
  else .ok (none, question)

/-- The translate-out phase (src/routers/tutor.py lines 190-195): performed
only when `source_language` is set, truthy, and not English. -/
def translate_out (C : Collaborators) (source_language : Option String)
    (response : String) : Except String String :=
  match source_language with
  | some sl =>
    if sl ≠ "" ∧ sl ≠ "en" ∧ sl ≠ "english" then C.translate_text response "en" sl
    else .ok response
  | none => .ok response

/-- The strategy dispatch of `ask_tutor` (src/routers/tutor.py lines
76-187): the `if use_tools` / `use_langgraph` / `use_tavily and
TAVILY_API_KEY` / `use_mcp` / fallback chain.  Returns the outcome
(answer and sources, or the collaborator's error), the conversation data
(mutated in place by the MCP branch's lazy agent creation, even when the
subsequent `agent.run` fails), and the trace of strategy branches
entered. -/
def dispatch (C : Collaborators) (conversation_data : ConvData) (request : TutorQuery)
    (question : String) (file_context : Option String) (use_tools : Bool) :
    Except String (String × List String) × ConvData × List Strategy :=
  if use_tools then
    if request.use_langgraph then
      let initial_state : GraphState := ⟨question, "", file_context.getD "", [], false, ""⟩
      match C.langgraph_invoke initial_state with
      | .error e => (.error e, conversation_data, [Strategy.langgraph])
      | .ok result =>
        (.ok (result.final_answer, result.search_results.filterMap (fun r => r.url)),
          conversation_data, [Strategy.langgraph])
    else if request.use_tavily && C.tavily_key_configured then
      match C.tavily_search question with
      | .error e => (.error e, conversation_data, [Strategy.tavily])
      | .ok search_results =>
        let context :=
          (match file_context with
            | some fc => "Context from uploaded files:\n" ++ fc ++ "\n\n"
            | none => "") ++ "Search results:\n" ++ tavily_search_context search_results
        match C.tavily_chain question context with
        | .error e => (.error e, conversation_data, [Strategy.tavily])
        | .ok response =>
          (.ok (response, search_results.map (fun r => r.url)),
            conversation_data, [Strategy.tavily])
    else if request.use_mcp then
      match (match conversation_data.agent with
        | some agent => Except.ok (agent, conversation_data)
        | none =>
          match C.mcp_create_agent with
          | .error e => .error e
          | .ok (agent, client) =>
            .ok (agent,
              { conversation_data with agent := some agent, client := some client })) with
      | .error e => (.error e, conversation_data, [Strategy.mcp])
      | .ok (agent, cd1) =>
        let question_with_context :=
          match file_context with
          | some fc => mcp_question_with_context fc question
          | none => question
        match agent.run question_with_context with
        | .error e => (.error e, cd1, [Strategy.mcp])
        | .ok response =>
          (.ok (response, extract_sources_from_agent_response response), cd1, [Strategy.mcp])
    else
      match C.direct_llm_response question file_context with
      | .error e => (.error e, conversation_data, [Strategy.direct])
      | .ok response => (.ok (response, []), conversation_data, [Strategy.direct])
  else
    match C.direct_llm_response question file_context with
    | .error e => (.error e, conversation_data, [Strategy.direct])
    | .ok response => (.ok (response, []), conversation_data, [Strategy.direct])

/-- Writing the (in-place mutated) conversation object back into the store:
the dict entry under `cid` now shows the mutated data. -/
def setConv (store : List (String × ConvData)) (cid : String) (cd : ConvData) :
    List (String × ConvData) :=
  store.map (fun p => if p.1 = cid then (p.1, cd) else p)

/-- The uniform error of the `except` clause:
`HTTPException(status_code=500, detail=f"Error processing request: {str(e)}")`. -/
def http500 (cause : String) : HTTPError :=
  ⟨500, "Error processing request: " ++ cause⟩

/-- Embedding of the `ask_tutor` endpoint: resolve conversation,
translate-in, assemble file context, select and dispatch a strategy,
translate-out, persist the turn, return — with every collaborator failure
caught at the boundary and wrapped by `http500`.  Returns the HTTP outcome,
the global `conversations` store after the request, and the trace of
strategy branches entered. -/
def ask_tutor (C : Collaborators) (conversations : List (String × ConvData))
    (request : TutorQuery) :
    Except HTTPError TutorResponse × List (String × ConvData) × List Strategy :=
  let r0 := get_or_create_conversation conversations request.conversation_id
  let conversation_id := r0.1
  let conversation_data := r0.2.1
  let store1 := r0.2.2
  match translate_in C request.language request.question with
  | .error e => (.error (http500 e), store1, [])
  | .ok (source_language, question) =>
    match find_relevant_context conversation_data question 3 with
    | .error e => (.error (http500 e), store1, [])
    | .ok file_context =>
      let use_tools := needs_external_tools question
      match dispatch C conversation_data request question file_context use_tools with
      | (.error e, cd1, trace) =>
        (.error (http500 e), setConv store1 conversation_id cd1, trace)
      | (.ok (response, sources), cd1, trace) =>
        match translate_out C source_language response with
        | .error e => (.error (http500 e), setConv store1 conversation_id cd1, trace)
        | .ok response2 =>
          let cd2 := { cd1 with
            memory := cd1.memory ++ [ChatMsg.user question, ChatMsg.ai response2] }
          (.ok ⟨response2, conversation_id, sources, request.language⟩,
            setConv store1 conversation_id cd2, trace)

/-- The claim's fixed selection order: graph-agent, then direct-search
guarded by the configured Tavily key, then tool-agent, then the plain
fallback. -/
def chosen_strategy (C : Collaborators) (request : TutorQuery) : Strategy :=
  if request.use_langgraph then Strategy.langgraph
  else if request.use_tavily && C.tavily_key_configured then Strategy.tavily
  else if request.use_mcp then Strategy.mcp
  else Strategy.direct

theorem translate_in_english (C : Collaborators) (q : String) :
    translate_in C "english" q = Except.ok (none, q) := by
  unfold translate_in
  rw [if_neg (by simp)]

theorem dispatch_trace (C : Collaborators) (cd : ConvData) (request : TutorQuery)
    (question : String) (file_context : Option String) :
    (dispatch C cd request question file_context true).2.2 = [chosen_strategy C request] ∧
    (∀ res, (dispatch C cd request question file_context true).1 = Except.ok res →
      chosen_strategy C request = Strategy.direct → res.2 = []) := by
  by_cases h1 : request.use_langgraph = true
  · have hcs : chosen_strategy C request = Strategy.langgraph := by
      simp [chosen_strategy, h1]
    rw [hcs]
    unfold dispatch
    rw [if_pos rfl, if_pos h1]
    refine ⟨?_, ?_⟩
    · dsimp only
      split <;> rfl
    · intro res h hd
      exact absurd hd (by decide)
  · by_cases h2 : (request.use_tavily && C.tavily_key_configured) = true
    · have hcs : chosen_strategy C request = Strategy.tavily := by
        simp [chosen_strategy, h1, h2]
      rw [hcs]
      unfold dispatch
      rw [if_pos rfl, if_neg h1, if_pos h2]
      refine ⟨?_, ?_⟩
      · split
        · rfl
        · dsimp only
          split <;> rfl
      · intro res h hd
        exact absurd hd (by decide)
    · by_cases h3 : request.use_mcp = true
      · have hcs : chosen_strategy C request = Strategy.mcp := by
          simp [chosen_strategy, h1, h2, h3]
        rw [hcs]
        unfold dispatch
        rw [if_pos rfl, if_neg h1, if_neg h2, if_pos h3]
        refine ⟨?_, ?_⟩
        · split
          · rfl
          · dsimp only
            split <;> rfl
        · intro res h hd
          exact absurd hd (by decide)
      · have hcs : chosen_strategy C request = Strategy.direct := by
          simp [chosen_strategy, h1, h2, h3]
        rw [hcs]
        unfold dispatch
        rw [if_pos rfl, if_neg h1, if_neg h2, if_neg h3]
        refine ⟨?_, ?_⟩
        · split <;> rfl
        · intro res h _
          split at h
          · simp at h
          · simp only [Except.ok.injEq] at h
            rw [← h]

/-- C3: when the (post-translation) question needs external tools and the
request reaches dispatch, exactly one strategy branch is entered, the one
given by the fixed order graph-agent, direct-search (guarded by the Tavily
key), tool-agent, plain fallback; and a successful plain-fallback response
carries an empty source list. -/
theorem ask_tutor_dispatch_order (C : Collaborators)
    (conversations : List (String × ConvData)) (request : TutorQuery)
    (hlang : request.language = "english")
    (htools : needs_external_tools request.question = true)
    (hctx : ∃ v, find_relevant_context
        (get_or_create_conversation conversations request.conversation_id).2.1
        request.question 3 = Except.ok v) :
    (ask_tutor C conversations request).2.2 = [chosen_strategy C request] ∧
    (∀ response, (ask_tutor C conversations request).1 = Except.ok response →
      chosen_strategy C request = Strategy.direct → response.sources = []) := by
  obtain ⟨v, hv⟩ := hctx
  have hti : translate_in C request.language request.question =
      Except.ok (none, request.question) := by
    rw [hlang]
    exact translate_in_english C request.question
  have hdt := dispatch_trace C
    (get_or_create_conversation conversations request.conversation_id).2.1
    request request.question v
  simp only [ask_tutor]
  rw [hti]
  dsimp only
  rw [hv]
  dsimp only
  rw [htools]
  rcases hd : dispatch C
      (get_or_create_conversation conversations request.conversation_id).2.1
      request request.question v true with ⟨dres, cd1, tr⟩
  rw [hd] at hdt
  cases dres with
  | error e =>
    dsimp only
    refine ⟨hdt.1, ?_⟩
    intro response h
    simp at h
  | ok pr =>
    obtain ⟨response, sources⟩ := pr
    dsimp only [translate_out]
    refine ⟨hdt.1, ?_⟩
    intro resp h hdirect
    simp only [Except.ok.injEq] at h
    rw [← h]
    exact hdt.2 (response, sources) rfl hdirect

theorem dispatch_memory (C : Collaborators) (cd : ConvData) (request : TutorQuery)
    (question : String) (file_context : Option String) (use_tools : Bool) :
    (dispatch C cd request question file_context use_tools).2.1.memory = cd.memory := by
  unfold dispatch
  by_cases hu : use_tools = true
  · rw [if_pos hu]
    by_cases h1 : request.use_langgraph = true
    · rw [if_pos h1]
      dsimp only
      split <;> rfl
    · rw [if_neg h1]
      by_cases h2 : (request.use_tavily && C.tavily_key_configured) = true
      · rw [if_pos h2]
        split
        · rfl
        · dsimp only
          split <;> rfl
      · rw [if_neg h2]
        by_cases h3 : request.use_mcp = true
        · rw [if_pos h3]
          cases hag : cd.agent with
          | some agent =>
            dsimp only
            split <;> rfl
          | none =>
            cases hcr : C.mcp_create_agent with
            | error e => rfl
            | ok pr =>
              obtain ⟨agent, client⟩ := pr
              dsimp only
              split <;> rfl
        · rw [if_neg h3]
          split <;> rfl
  · rw [if_neg hu]
    split <;> rfl

theorem lookup_setConv (store : List (String × ConvData)) (cid cid2 : String)
    (cd : ConvData) :
    List.lookup cid2 (setConv store cid cd) =
      (List.lookup cid2 store).map (fun cd1 => if cid2 = cid then cd else cd1) := by
  induction store with
  | nil => rfl
  | cons p t ih =>
    obtain ⟨k, v⟩ := p
    by_cases h2k : cid2 = k
    · have hbeq : (cid2 == k) = true := beq_iff_eq.2 h2k
      by_cases hkc : k = cid
      · show List.lookup cid2 ((if k = cid then (k, cd) else (k, v)) :: setConv t cid cd) = _
        rw [if_pos hkc, List.lookup_cons, List.lookup_cons, hbeq]
        dsimp only [Option.map]
        rw [if_pos (h2k.trans hkc)]
      · show List.lookup cid2 ((if k = cid then (k, cd) else (k, v)) :: setConv t cid cd) = _
        rw [if_neg hkc, List.lookup_cons, List.lookup_cons, hbeq]
        dsimp only [Option.map]
        rw [if_neg (fun h => hkc (h2k.symm.trans h))]
    · have hbeq : (cid2 == k) = false := beq_eq_false_iff_ne.2 h2k
      show List.lookup cid2 ((if k = cid then (k, cd) else (k, v)) :: setConv t cid cd) = _
      by_cases hkc : k = cid
      · rw [if_pos hkc, List.lookup_cons, List.lookup_cons, hbeq]
        exact ih
      · rw [if_neg hkc, List.lookup_cons, List.lookup_cons, hbeq]
        exact ih

theorem lookup_append_left_none {β : Type _} (a : String) (s t : List (String × β))
    (h : List.lookup a s = none) : List.lookup a (s ++ t) = List.lookup a t := by
  induction s with
  | nil => rfl
  | cons p s2 ih =>
    obtain ⟨k, v⟩ := p
    by_cases hb : (a == k) = true
    · rw [List.lookup_cons, hb] at h
      exact absurd h (by simp)
    · have hb2 : (a == k) = false := by
        rwa [Bool.not_eq_true] at hb
      rw [List.lookup_cons, hb2] at h
      show List.lookup a ((k, v) :: (s2 ++ t)) = _
      rw [List.lookup_cons, hb2]
      exact ih h

theorem get_or_create_lookup (s : List (String × ConvData)) (i : Option String) :
    List.lookup (get_or_create_conversation s i).1
        (get_or_create_conversation s i).2.2 =
      some (get_or_create_conversation s i).2.1 := by
  have main : ∀ cid : String,
      List.lookup (get_or_create_conversation s (some cid)).1
          (get_or_create_conversation s (some cid)).2.2 =
        some (get_or_create_conversation s (some cid)).2.1 := by
    intro cid
    simp only [get_or_create_conversation]
    cases hl : List.lookup cid s with
    | some d => exact hl
    | none =>
      dsimp only
      rw [lookup_append_left_none _ _ _ hl, List.lookup_cons]
      rw [show (cid == cid) = true from beq_self_eq_true cid]
  cases i with
  | some cid => exact main cid
  | none =>
    have h2 := main (mintId s)
    simp only [get_or_create_conversation] at h2 ⊢
    exact h2

theorem setConv_memory_lookup (store1 : List (String × ConvData)) (rid : String)
    (cdr cd1 : ConvData) (hres : List.lookup rid store1 = some cdr)
    (hmem : cd1.memory = cdr.memory) :
    ∀ cid cd2, List.lookup cid (setConv store1 rid cd1) = some cd2 →
      ∃ cd0, List.lookup cid store1 = some cd0 ∧ cd2.memory = cd0.memory := by
  intro cid cd2 hl
  rw [lookup_setConv] at hl
  cases hls : List.lookup cid store1 with
  | none =>
    rw [hls] at hl
    simp at hl
  | some cd0 =>
    rw [hls] at hl
    simp only [Option.map_some'] at hl
    by_cases hc : cid = rid
    · have h2 : cd2 = cd1 := by
        rw [if_pos hc] at hl
        exact (Option.some.inj hl).symm
      refine ⟨cd0, rfl, ?_⟩
      have h3 : cd0 = cdr := by
        rw [hc] at hls
        exact Option.some.inj (hls.symm.trans hres)
      rw [h2, hmem, h3]
    · have h2 : cd2 = cd0 := by
        rw [if_neg hc] at hl
        exact (Option.some.inj hl).symm
      exact ⟨cd0, rfl, by rw [h2]⟩

/-- C4: whenever `ask_tutor` fails (any collaborator call raised), the
surfaced outcome is the single uniform `http500` error carrying the
underlying cause message, and no turn was appended to any conversation's
memory: every conversation in the resulting store has the memory it had
right after conversation resolution. -/
theorem ask_tutor_failure_semantics (C : Collaborators)
    (conversations : List (String × ConvData)) (request : TutorQuery) (err : HTTPError)
    (hfail : (ask_tutor C conversations request).1 = Except.error err) :
    (∃ cause, err = http500 cause) ∧
    (∀ cid cd2, List.lookup cid (ask_tutor C conversations request).2.1 = some cd2 →
      ∃ cd0, List.lookup cid
          (get_or_create_conversation conversations request.conversation_id).2.2 =
            some cd0 ∧
        cd2.memory = cd0.memory) := by
  simp only [ask_tutor] at hfail ⊢
  cases hti : translate_in C request.language request.question with
  | error e =>
    rw [hti] at hfail
    dsimp only at hfail ⊢
    refine ⟨⟨e, (Except.error.inj hfail).symm⟩, ?_⟩
    intro cid cd2 hl
    exact ⟨cd2, hl, rfl⟩
  | ok pr =>
    obtain ⟨sl, q⟩ := pr
    rw [hti] at hfail
    dsimp only at hfail ⊢
    cases hfc : find_relevant_context
        (get_or_create_conversation conversations request.conversation_id).2.1 q 3 with
    | error e =>
      rw [hfc] at hfail
      dsimp only at hfail ⊢
      refine ⟨⟨e, (Except.error.inj hfail).symm⟩, ?_⟩
      intro cid cd2 hl
      exact ⟨cd2, hl, rfl⟩
    | ok file_context =>
      rw [hfc] at hfail
      dsimp only at hfail ⊢
      rcases hd : dispatch C
          (get_or_create_conversation conversations request.conversation_id).2.1
          request q file_context (needs_external_tools q) with ⟨dres, cd1, tr⟩
      rw [hd] at hfail
      have hmem : cd1.memory =
          (get_or_create_conversation conversations request.conversation_id).2.1.memory := by
        have h2 := dispatch_memory C
          (get_or_create_conversation conversations request.conversation_id).2.1
          request q file_context (needs_external_tools q)
        rw [hd] at h2
        exact h2
      cases dres with
      | error e =>
        dsimp only at hfail ⊢
        refine ⟨⟨e, (Except.error.inj hfail).symm⟩, ?_⟩
        exact setConv_memory_lookup _ _ _ _ (get_or_create_lookup conversations request.conversation_id) hmem
      | ok pr2 =>
        obtain ⟨response, sources⟩ := pr2
        dsimp only at hfail ⊢
        cases hto : translate_out C sl response with
        | error e =>
          rw [hto] at hfail
          dsimp only at hfail ⊢
          refine ⟨⟨e, (Except.error.inj hfail).symm⟩, ?_⟩
          exact setConv_memory_lookup _ _ _ _ (get_or_create_lookup conversations request.conversation_id) hmem
        | ok response2 =>
          rw [hto] at hfail
          dsimp only at hfail
          exact absurd hfail (by simp)

/-- Collaborators for a French request: detection says "fr", fr→en maps
"Bonjour" to "Hello", en→fr prefixes "fr:", and the direct chain answers in
English. -/
def c1_collab : Collaborators where
  detect_language := fun _ => .ok "fr"
  translate_text := fun text source target =>
    if source = "fr" && target = "en" && text = "Bonjour" then .ok "Hello"
    else if source = "en" && target = "fr" then .ok ("fr:" ++ text)
    else .error "unexpected translation"
  direct_llm_response := fun _ _ => .ok "Greetings answer"
  langgraph_invoke := fun _ => .error "not used"
  tavily_search := fun _ => .error "not used"
  tavily_chain := fun _ _ => .error "not used"
  mcp_create_agent := .error "not used"
  tavily_key_configured := false

/-- A French question with `language="fr"` and default strategy flags. -/
def c1_request : TutorQuery := ⟨"Bonjour", none, "fr", true, true, false⟩

/-- C1 (code bug): on a successfully dispatched French request, the turn
persisted to the conversation's memory holds the English *translation*
"Hello" of the question — not the original "Bonjour" — together with the
(correctly post-translation) final answer.  Line 198 of
src/routers/tutor.py persists `request.question`, overwritten at line 63;
the `original_question` saved at line 62 is never used. -/
theorem ask_tutor_persists_translated_question :
    (ask_tutor c1_collab [] c1_request).1 =
      Except.ok ⟨"fr:Greetings answer", "conv_1", [], "fr"⟩ ∧
    List.lookup "conv_1" (ask_tutor c1_collab [] c1_request).2.1 =
      some ⟨[ChatMsg.user "Hello", ChatMsg.ai "fr:Greetings answer"], none, none, []⟩ ∧
    c1_request.question = "Bonjour" ∧
    (ChatMsg.user "Hello" : ChatMsg) ≠ ChatMsg.user "Bonjour" := by
  refine ⟨rfl, rfl, rfl, by decide⟩

/-- Collaborators with every strategy preference available and the Tavily
key configured; only the graph agent answers. -/
def c3_collab : Collaborators where
  detect_language := fun _ => .error "not used"
  translate_text := fun _ _ _ => .error "not used"
  direct_llm_response := fun _ _ => .error "not used"
  langgraph_invoke := fun _ => .ok ⟨"graph answer", [⟨some "https://a.example"⟩]⟩
  tavily_search := fun _ => .error "not used"
  tavily_chain := fun _ _ => .error "not used"
  mcp_create_agent := .error "not used"
  tavily_key_configured := true

/-- A tool-needing English question requesting all three strategies at
once. -/
def c3_request : TutorQuery :=
  ⟨"What are the latest statistics on climate change?", none, "english", true, true, true⟩

theorem ask_tutor_dispatch_order_witness :
    (ask_tutor c3_collab [] c3_request).2.2 = [chosen_strategy c3_collab c3_request] ∧
    (∀ response, (ask_tutor c3_collab [] c3_request).1 = Except.ok response →
      chosen_strategy c3_collab c3_request = Strategy.direct → response.sources = []) :=
  ask_tutor_dispatch_order c3_collab [] c3_request rfl (by decide) ⟨none, rfl⟩

/-- Collaborators whose direct LLM chain is down. -/
def c4_collab : Collaborators where
  detect_language := fun _ => .error "not used"
  translate_text := fun _ _ _ => .error "not used"
  direct_llm_response := fun _ _ => .error "llm down"
  langgraph_invoke := fun _ => .error "not used"
  tavily_search := fun _ => .error "not used"
  tavily_chain := fun _ _ => .error "not used"
  mcp_create_agent := .error "not used"
  tavily_key_configured := false

/-- A plain English conceptual question with no tool preferences. -/
def c4_request : TutorQuery :=
  ⟨"Explain Newton's second law", none, "english", false, false, false⟩

theorem ask_tutor_failure_semantics_witness :
    (∃ cause, http500 "llm down" = http500 cause) ∧
    (∀ cid cd2, List.lookup cid (ask_tutor c4_collab [] c4_request).2.1 = some cd2 →
      ∃ cd0, List.lookup cid
          (get_or_create_conversation [] c4_request.conversation_id).2.2 = some cd0 ∧
        cd2.memory = cd0.memory) :=
  ask_tutor_failure_semantics c4_collab [] c4_request (http500 "llm down") rfl

end Axon
